import Mathlib

/-!
Verification development for the order-preserving parallel output formatter
(`src/Processors/Formats/Impl/ParallelFormattingOutputFormat.h`) and the
scalar `byteSwap` function (`src/Functions/byteSwap.cpp`).

The formatter's header-level operations (constructor sizing, totals/extremes
routing, background-exception capture and rethrow, flush, formatter reset)
are embedded as pure functions over an explicit instance state.  The
multi-threaded producer / worker / collector protocol, whose bodies live in
the accompanying translation unit, is embedded as an interleaving transition
system over a ring of processing units.
-/

namespace ClickSpec

/-- A chunk is an opaque batch of rows; the core never inspects its
contents, so we model it as an opaque payload. -/
abbrev Chunk := List Nat

/-! ### `byteSwap` — `src/Functions/byteSwap.cpp`

`byteSwap` reverses the bytes of a fixed-width integer: the builtin widths
go through `std::byteswap`, the 128/256-bit wide types through
`reverseMemcpy`; both are plain byte-order reversal of the `sizeof(T)`
bytes of the value.  We model an `n`-byte unsigned value as a natural
number below `256 ^ n` and byte reversal as reversal of its little-endian
byte list. -/

/-- Little-endian byte decomposition of `x` into exactly `n` bytes. -/
def toBytes : Nat → Nat → List Nat
  | 0, _ => []
  | n + 1, x => (x % 256) :: toBytes n (x / 256)

/-- Recompose a little-endian byte list into a natural number. -/
def fromBytes : List Nat → Nat
  | [] => 0
  | b :: bs => b + 256 * fromBytes bs

/-- `byteSwap` on an `n`-byte integer value: reverse the order of its
`n` bytes, as `std::byteswap` / `reverseMemcpy` do in
`src/Functions/byteSwap.cpp`. -/
def byteSwap (n : Nat) (x : Nat) : Nat :=
  fromBytes (toBytes n x).reverse


/-! ### Header-level state of `ParallelFormattingOutputFormat`

These definitions embed the members and the inline methods that appear in
`src/Processors/Formats/Impl/ParallelFormattingOutputFormat.h`. -/

/-- `ProcessingUnitType` — which method of the inner formatter a ticket
runs (header, lines 201–209). -/
inductive ProcessingUnitType : Type
  | START
  | PLAIN
  | PLAIN_FINISH
  | TOTALS
  | EXTREMES
  | FINALIZE
  deriving DecidableEq

/-- `ProcessingUnitStatus` — the three slot statuses (header, lines
193–198).  The spec calls them `FREE`, `FORMATTING`, `READY`. -/
inductive ProcessingUnitStatus : Type
  | READY_TO_INSERT
  | READY_TO_FORMAT
  | READY_TO_READ
  deriving DecidableEq

/-- Error kinds surfaced by the embedded fragments (`ErrorCodes` in the
source; `NOT_IMPLEMENTED` is the kind thrown by `resetFormatterImpl`). -/
inductive ErrorCode : Type
  | NOT_IMPLEMENTED
  | LOGICAL_ERROR
  deriving DecidableEq

/-- The `Statistics` aggregate guarded by `statistics_mutex`. -/
structure Statistics : Type where
  totals : Option Chunk
  extremes : Option Chunk
  rows_before_limit : Nat
  applied_limit : Bool
  rows_before_aggregation : Nat
  applied_aggregation : Bool
  deriving DecidableEq

/-- The header-level mutable state of one formatter instance.  Exception
pointers are modelled as `Option Nat` (an opaque error payload), condvar
`notify_all` broadcasts as counters, and the sequence of tickets handed to
`addChunk` as an explicit list. -/
structure FmtState : Type where
  num_processing_units : Nat
  save_totals_and_extremes_in_statistics : Bool
  statistics : Statistics
  tickets : List (ProcessingUnitType × Chunk)
  are_totals_written : Bool
  background_exception : Option Nat
  emergency_stop : Bool
  writer_notifications : Nat
  collector_notifications : Nat
  exception_is_rethrown : Bool
  need_flush : Bool
  auto_flush : Bool
  deriving DecidableEq

/-- The modulus of `size_t` arithmetic on the target platform (64-bit). -/
def sizeTModulus : Nat := 2 ^ 64

/-- The constructor (header, lines 85–109): it queries
`areTotalsAndExtremesUsedInFinalize` from one freshly created inner
formatter (its value is the first argument here) and sizes the ring of
processing units as `std::min(max_threads_for_parallel_formatting + 2,
size_t{1024})`.  The sum is computed in `size_t`, so it wraps modulo
`2 ^ 64`: at `SIZE_MAX - 1` and `SIZE_MAX` threads the ring gets 0 and 1
slots.  All flags start out cleared, matching the member initializers. -/
def construct (totals_and_extremes_used_in_finalize : Bool)
    (max_threads_for_parallel_formatting : Nat) : FmtState :=
  { num_processing_units :=
      min ((max_threads_for_parallel_formatting + 2) % sizeTModulus) 1024
    save_totals_and_extremes_in_statistics := totals_and_extremes_used_in_finalize
    statistics :=
      { totals := none
        extremes := none
        rows_before_limit := 0
        applied_limit := false
        rows_before_aggregation := 0
        applied_aggregation := false }
    tickets := []
    are_totals_written := false
    background_exception := none
    emergency_stop := false
    writer_notifications := 0
    collector_notifications := 0
    exception_is_rethrown := false
    need_flush := false
    auto_flush := false }

/-- `rethrowBackgroundException` (header, lines 278–287): rethrow the
stored exception only once; `exception_is_rethrown` latches.  The second
component is the exception thrown by this call, if any. -/
def rethrowBackgroundException (s : FmtState) : FmtState × Option Nat :=
  if s.exception_is_rethrown then (s, none)
  else ({ s with exception_is_rethrown := true }, s.background_exception)

/-- Modelled from the spec: the body of `addChunk` is declared in the
header (line 211) but defined in the missing translation unit.  Per spec
§4.1, if `emergency_stop` is set the call rethrows the background
exception (once, through the latch) when the caller allows throwing, and
otherwise returns without enqueuing anything — a poisoned instance
enqueues no ticket (§7).  In the clean case it assigns the chunk the next
ticket and dispatches a formatter task; at this level we record the
enqueued ticket, the ring protocol itself being the transition system
below.  The second component is the exception the call throws, if any. -/
def addChunk (s : FmtState) (chunk : Chunk) (t : ProcessingUnitType)
    (can_throw_exception : Bool) : FmtState × Option Nat :=
  if s.emergency_stop then
    if can_throw_exception then rethrowBackgroundException s
    else (s, none)
  else
    ({ s with tickets := s.tickets ++ [(t, chunk)] }, none)

/-- `consumeTotals` (header, lines 155–167): route the totals chunk into
`statistics` when `save_totals_and_extremes_in_statistics` is set,
otherwise call `addChunk` with a `TOTALS` ticket and, if that call
returned normally, raise `are_totals_written`. -/
def consumeTotals (s : FmtState) (totals : Chunk) : FmtState × Option Nat :=
  if s.save_totals_and_extremes_in_statistics then
    ({ s with statistics := { s.statistics with totals := some totals } },
      none)
  else
    match addChunk s totals ProcessingUnitType.TOTALS true with
    | (s1, some e) => (s1, some e)
    | (s1, none) => ({ s1 with are_totals_written := true }, none)

/-- `consumeExtremes` (header, lines 169–180): route the extremes chunk
into `statistics` when `save_totals_and_extremes_in_statistics` is set,
otherwise call `addChunk` with an `EXTREMES` ticket. -/
def consumeExtremes (s : FmtState) (extremes : Chunk) : FmtState × Option Nat :=
  if s.save_totals_and_extremes_in_statistics then
    ({ s with statistics := { s.statistics with extremes := some extremes } },
      none)
  else
    addChunk s extremes ProcessingUnitType.EXTREMES true

/-- `onBackgroundException` (header, lines 266–276): under `mutex`, store
the current exception only if none is stored yet, set `emergency_stop`,
and `notify_all` both condition variables. -/
def onBackgroundException (s : FmtState) (e : Nat) : FmtState :=
  { s with
      background_exception :=
        match s.background_exception with
        | none => some e
        | some e0 => some e0
      emergency_stop := true
      writer_notifications := s.writer_notifications + 1
      collector_notifications := s.collector_notifications + 1 }

/-- Iterate `rethrowBackgroundException` `n` times, counting how many of
the calls actually threw. -/
def rethrowCalls : Nat → FmtState → FmtState × Nat
  | 0, s => (s, 0)
  | n + 1, s =>
    let r := rethrowBackgroundException s
    let rest := rethrowCalls n r.1
    (rest.1, (if r.2.isSome then 1 else 0) + rest.2)

/-- `flushImpl` (header, lines 118–122): raise `need_flush` only when
`auto_flush` is not set. -/
def flushImpl (s : FmtState) : FmtState :=
  if s.auto_flush then s else { s with need_flush := true }

/-- `resetFormatterImpl` (header, lines 184–188): unconditionally throw a
`NOT_IMPLEMENTED` error before touching any state.  The first component is
the instance state as the method leaves it, the second the thrown error. -/
def resetFormatterImpl (s : FmtState) : FmtState × Option ErrorCode :=
  (s, some ErrorCode.NOT_IMPLEMENTED)

/-! ### The ring protocol — producer, formatter workers, collector

The bodies of `addChunk`, `formatterThreadFunction` and
`collectorThreadFunction` live in the translation unit that accompanies
the header; only their declarations are in the header.  Modelled from the
spec (§4.1–§4.3): the producer claims slot `writer_unit_number mod N` when
it is `READY_TO_INSERT`, a worker formats any `READY_TO_FORMAT` slot into
its private segment, and the single collector drains slot
`collector_unit_number mod N` once it is `READY_TO_READ`, appending the
segment to the downstream sink.  Thread interleaving is modelled by the
step relation `Step`; worker completion order is unconstrained. -/

/-- Pointwise update of a slot-indexed map. -/
def upd {α : Type} (f : Nat → α) (i : Nat) (v : α) : Nat → α :=
  fun j => if j = i then v else f j

/-- The shared state of the ring protocol: the two ticket counters, the
per-slot status, payload and formatted segment, and the downstream sink. -/
structure SysState : Type where
  writer_unit_number : Nat
  collector_unit_number : Nat
  status : Nat → ProcessingUnitStatus
  chunkInSlot : Nat → Chunk
  segment : Nat → List Nat
  sink : List Nat

/-- The initial state: both counters at zero, every slot
`READY_TO_INSERT`, nothing in the sink. -/
def initSys : SysState :=
  { writer_unit_number := 0
    collector_unit_number := 0
    status := fun _ => ProcessingUnitStatus.READY_TO_INSERT
    chunkInSlot := fun _ => []
    segment := fun _ => []
    sink := [] }

/-- Modelled from the spec: one interleaved step of the protocol, over a
ring of `N` slots, with `inputs` the sequence of chunks the caller
submits and `fmt` the inner formatter (bytes produced for one chunk). -/
inductive Step (N : Nat) (inputs : List Chunk) (fmt : Chunk → List Nat) :
    SysState → SysState → Prop
  | addChunk (s : SysState)
      (hin : s.writer_unit_number < inputs.length)
      (hfree : s.status (s.writer_unit_number % N) =
        ProcessingUnitStatus.READY_TO_INSERT) :
      Step N inputs fmt s
        { s with
            writer_unit_number := s.writer_unit_number + 1
            status := upd s.status (s.writer_unit_number % N)
              ProcessingUnitStatus.READY_TO_FORMAT
            chunkInSlot := upd s.chunkInSlot (s.writer_unit_number % N)
              (inputs.getD s.writer_unit_number []) }
  | formatterThread (s : SysState) (p : Nat) (hp : p < N)
      (hfmt : s.status p = ProcessingUnitStatus.READY_TO_FORMAT) :
      Step N inputs fmt s
        { s with
            status := upd s.status p ProcessingUnitStatus.READY_TO_READ
            segment := upd s.segment p (fmt (s.chunkInSlot p)) }
  | collectorThread (s : SysState)
      (hready : s.status (s.collector_unit_number % N) =
        ProcessingUnitStatus.READY_TO_READ) :
      Step N inputs fmt s
        { s with
            collector_unit_number := s.collector_unit_number + 1
            status := upd s.status (s.collector_unit_number % N)
              ProcessingUnitStatus.READY_TO_INSERT
            sink := s.sink ++ s.segment (s.collector_unit_number % N) }

/-- States reachable from `initSys` by interleaved protocol steps. -/
inductive Reachable (N : Nat) (inputs : List Chunk) (fmt : Chunk → List Nat) :
    SysState → Prop
  | init : Reachable N inputs fmt initSys
  | step {s s' : SysState} : Reachable N inputs fmt s →
      Step N inputs fmt s s' → Reachable N inputs fmt s'

/-- The output of a single-threaded formatter over a chunk sequence: the
concatenation of the per-chunk byte segments, in order. -/
def seqFormat (fmt : Chunk → List Nat) : List Chunk → List Nat
  | [] => []
  | c :: cs => fmt c ++ seqFormat fmt cs

/-- Physical slot `p` is occupied: some in-flight ticket maps to it. -/
def occupied (N : Nat) (s : SysState) (p : Nat) : Prop :=
  ∃ t, s.collector_unit_number ≤ t ∧ t < s.writer_unit_number ∧ t % N = p

/-- The inductive invariant of the ring protocol. -/
structure Inv (N : Nat) (inputs : List Chunk) (fmt : Chunk → List Nat)
    (s : SysState) : Prop where
  h_cw : s.collector_unit_number ≤ s.writer_unit_number
  h_wc : s.writer_unit_number ≤ s.collector_unit_number + N
  h_wlen : s.writer_unit_number ≤ inputs.length
  h_free : ∀ p, ¬ occupied N s p →
    s.status p = ProcessingUnitStatus.READY_TO_INSERT
  h_occ : ∀ t, s.collector_unit_number ≤ t → t < s.writer_unit_number →
    s.status (t % N) ≠ ProcessingUnitStatus.READY_TO_INSERT ∧
    (s.status (t % N) = ProcessingUnitStatus.READY_TO_FORMAT →
      s.chunkInSlot (t % N) = inputs.getD t []) ∧
    (s.status (t % N) = ProcessingUnitStatus.READY_TO_READ →
      s.segment (t % N) = fmt (inputs.getD t []))
  h_sink : s.sink = seqFormat fmt (inputs.take s.collector_unit_number)

/-! ### Concrete trace used by the witnesses -/

/-- A concrete inner formatter: identity on the payload bytes. -/
def idFmt : Chunk → List Nat := fun c => c

/-- A concrete input sequence of chunks. -/
def inputsW : List Chunk := [[3], [4]]

/-- After the producer claims ticket 0 on a ring of 2 slots. -/
def sysW1 : SysState :=
  { initSys with
      writer_unit_number := initSys.writer_unit_number + 1
      status := upd initSys.status (initSys.writer_unit_number % 2)
        ProcessingUnitStatus.READY_TO_FORMAT
      chunkInSlot := upd initSys.chunkInSlot (initSys.writer_unit_number % 2)
        (inputsW.getD initSys.writer_unit_number []) }

/-- After a worker formats slot 0. -/
def sysW2 : SysState :=
  { sysW1 with
      status := upd sysW1.status 0 ProcessingUnitStatus.READY_TO_READ
      segment := upd sysW1.segment 0 (idFmt (sysW1.chunkInSlot 0)) }

/-- After the collector drains ticket 0 into the sink. -/
def sysW3 : SysState :=
  { sysW2 with
      collector_unit_number := sysW2.collector_unit_number + 1
      status := upd sysW2.status (sysW2.collector_unit_number % 2)
        ProcessingUnitStatus.READY_TO_INSERT
      sink := sysW2.sink ++ sysW2.segment (sysW2.collector_unit_number % 2) }

/-- A freshly constructed instance with a recorded background error. -/
def excState : FmtState :=
  { construct false 4 with background_exception := some 5 }

/-- A freshly constructed instance with auto-flush mode enabled. -/
def autoFlushState : FmtState :=
  { construct false 4 with auto_flush := true }

/-- A poisoned instance: a background error was reported, so
`emergency_stop` is set and an exception is stored. -/
def poisonedState : FmtState :=
  { construct false 4 with
      emergency_stop := true
      background_exception := some 5 }


lemma length_toBytes (n x : Nat) : (toBytes n x).length = n := by
  induction n generalizing x with
  | zero => rfl
  | succ n ih => simp [toBytes, ih]

lemma toBytes_lt (n x : Nat) : ∀ b ∈ toBytes n x, b < 256 := by
  induction n generalizing x with
  | zero => intro b hb; simp [toBytes] at hb
  | succ n ih =>
    intro b hb
    simp only [toBytes, List.mem_cons] at hb
    rcases hb with h | h
    · subst h; exact Nat.mod_lt _ (by norm_num)
    · exact ih (x / 256) b h

lemma fromBytes_toBytes (n x : Nat) (h : x < 256 ^ n) :
    fromBytes (toBytes n x) = x := by
  induction n generalizing x with
  | zero =>
    simp only [pow_zero, Nat.lt_one_iff] at h
    subst h; rfl
  | succ n ih =>
    have hdiv : x / 256 < 256 ^ n := by
      apply Nat.div_lt_of_lt_mul
      rw [pow_succ] at h
      omega
    simp only [toBytes, fromBytes, ih (x / 256) hdiv]
    omega

lemma toBytes_fromBytes (bs : List Nat) (h : ∀ b ∈ bs, b < 256) :
    toBytes bs.length (fromBytes bs) = bs := by
  induction bs with
  | nil => rfl
  | cons b bs ih =>
    have hb : b < 256 := h b (by simp)
    have hmod : (b + 256 * fromBytes bs) % 256 = b := by omega
    have hdiv : (b + 256 * fromBytes bs) / 256 = fromBytes bs := by omega
    simp only [List.length_cons, toBytes, fromBytes, hmod, hdiv]
    rw [ih (fun x hx => h x (List.mem_cons_of_mem _ hx))]

lemma ticket_unique {N c w t1 t2 : Nat} (hw : w ≤ c + N)
    (h1 : c ≤ t1) (h1' : t1 < w) (h2 : c ≤ t2) (h2' : t2 < w)
    (hmod : t1 % N = t2 % N) : t1 = t2 := by
  rcases Nat.le_total t1 t2 with hle | hle
  · have hdvd : N ∣ t2 - t1 := (Nat.modEq_iff_dvd' hle).mp hmod
    have : t2 - t1 = 0 := by
      by_contra hne
      have := Nat.le_of_dvd (Nat.pos_of_ne_zero hne) hdvd
      omega
    omega
  · have hdvd : N ∣ t1 - t2 := (Nat.modEq_iff_dvd' hle).mp hmod.symm
    have : t1 - t2 = 0 := by
      by_contra hne
      have := Nat.le_of_dvd (Nat.pos_of_ne_zero hne) hdvd
      omega
    omega

lemma seqFormat_take_succ (fmt : Chunk → List Nat) (l : List Chunk) (n : Nat)
    (h : n < l.length) :
    seqFormat fmt (l.take (n + 1)) =
      seqFormat fmt (l.take n) ++ fmt (l.getD n []) := by
  induction l generalizing n with
  | nil => simp at h
  | cons c cs ih =>
    cases n with
    | zero => simp [seqFormat]
    | succ n =>
      simp only [List.take_succ_cons, seqFormat, List.getD_cons_succ,
        List.length_cons] at *
      rw [ih n (by omega), List.append_assoc]
lemma inv_init (N : Nat) (inputs : List Chunk) (fmt : Chunk → List Nat) :
    Inv N inputs fmt initSys := by
  refine ⟨Nat.le_refl 0, Nat.le_add_right 0 N, Nat.zero_le _, ?_, ?_, rfl⟩
  · intro p _
    rfl
  · intro t _ ht
    exact absurd ht (Nat.not_lt_zero t)

lemma inv_step {N : Nat} {inputs : List Chunk} {fmt : Chunk → List Nat}
    {s s' : SysState} (hN : 0 < N) (hinv : Inv N inputs fmt s)
    (hstep : Step N inputs fmt s s') : Inv N inputs fmt s' := by
  obtain ⟨h_cw, h_wc, h_wlen, h_free, h_occ, h_sink⟩ := hinv
  cases hstep with
  | addChunk hin hfree =>
    have hnotocc : ¬ occupied N s (s.writer_unit_number % N) := by
      rintro ⟨t, ht1, ht2, ht3⟩
      exact (h_occ t ht1 ht2).1 (by rw [ht3]; exact hfree)
    have hwlt : s.writer_unit_number < s.collector_unit_number + N := by
      by_contra hge
      have hweq : s.writer_unit_number = s.collector_unit_number + N := by
        omega
      exact hnotocc ⟨s.collector_unit_number, Nat.le_refl _,
        show s.collector_unit_number < s.writer_unit_number by omega,
        by rw [hweq, Nat.add_mod_right]⟩
    refine ⟨?_, ?_, ?_, ?_, ?_, ?_⟩
    · show s.collector_unit_number ≤ s.writer_unit_number + 1
      omega
    · show s.writer_unit_number + 1 ≤ s.collector_unit_number + N
      omega
    · show s.writer_unit_number + 1 ≤ inputs.length
      omega
    · intro p hnp
      show upd s.status (s.writer_unit_number % N)
        ProcessingUnitStatus.READY_TO_FORMAT p =
        ProcessingUnitStatus.READY_TO_INSERT
      by_cases hpw : p = s.writer_unit_number % N
      · exact absurd ⟨s.writer_unit_number, h_cw,
          show s.writer_unit_number < s.writer_unit_number + 1 by omega,
          hpw.symm⟩ hnp
      · have hnps : ¬ occupied N s p := by
          rintro ⟨t, ht1, ht2, ht3⟩
          exact hnp ⟨t, ht1, show t < s.writer_unit_number + 1 by omega, ht3⟩
        simpa [upd, hpw] using h_free p hnps
    · intro t ht1 ht2
      have ht1' : s.collector_unit_number ≤ t := ht1
      have ht2' : t < s.writer_unit_number + 1 := ht2
      by_cases htw : t = s.writer_unit_number
      · subst htw
        refine ⟨?_, ?_, ?_⟩
        · show upd s.status (s.writer_unit_number % N)
            ProcessingUnitStatus.READY_TO_FORMAT (s.writer_unit_number % N) ≠
            ProcessingUnitStatus.READY_TO_INSERT
          simp [upd]
        · intro _
          show upd s.chunkInSlot (s.writer_unit_number % N)
            (inputs.getD s.writer_unit_number []) (s.writer_unit_number % N) =
            inputs.getD s.writer_unit_number []
          simp [upd]
        · intro habs
          have habs' : upd s.status (s.writer_unit_number % N)
              ProcessingUnitStatus.READY_TO_FORMAT
              (s.writer_unit_number % N) =
              ProcessingUnitStatus.READY_TO_READ := habs
          simp [upd] at habs'
      · have htw' : t < s.writer_unit_number := by omega
        have hmodne : t % N ≠ s.writer_unit_number % N := fun heq =>
          hnotocc ⟨t, ht1', htw', heq⟩
        have h3 := h_occ t ht1' htw'
        refine ⟨?_, ?_, ?_⟩
        · show upd s.status (s.writer_unit_number % N)
            ProcessingUnitStatus.READY_TO_FORMAT (t % N) ≠
            ProcessingUnitStatus.READY_TO_INSERT
          simpa [upd, hmodne] using h3.1
        · intro hst
          have hst' : s.status (t % N) =
              ProcessingUnitStatus.READY_TO_FORMAT := by
            have hst2 : upd s.status (s.writer_unit_number % N)
                ProcessingUnitStatus.READY_TO_FORMAT (t % N) =
                ProcessingUnitStatus.READY_TO_FORMAT := hst
            simpa [upd, hmodne] using hst2
          show upd s.chunkInSlot (s.writer_unit_number % N)
            (inputs.getD s.writer_unit_number []) (t % N) = inputs.getD t []
          simpa [upd, hmodne] using h3.2.1 hst'
        · intro hst
          have hst' : s.status (t % N) =
              ProcessingUnitStatus.READY_TO_READ := by
            have hst2 : upd s.status (s.writer_unit_number % N)
                ProcessingUnitStatus.READY_TO_FORMAT (t % N) =
                ProcessingUnitStatus.READY_TO_READ := hst
            simpa [upd, hmodne] using hst2
          exact h3.2.2 hst'
    · exact h_sink
  | formatterThread p hp hfmt =>
    have hocc : occupied N s p := by
      by_contra hno
      rw [h_free p hno] at hfmt
      exact absurd hfmt (by decide)
    refine ⟨h_cw, h_wc, h_wlen, ?_, ?_, h_sink⟩
    · intro q hnq
      show upd s.status p ProcessingUnitStatus.READY_TO_READ q =
        ProcessingUnitStatus.READY_TO_INSERT
      by_cases hqp : q = p
      · exfalso
        apply hnq
        show occupied N s q
        rw [hqp]
        exact hocc
      · have hnqs : ¬ occupied N s q := fun hx => hnq hx
        simpa [upd, hqp] using h_free q hnqs
    · intro t ht1 ht2
      have ht1' : s.collector_unit_number ≤ t := ht1
      have ht2' : t < s.writer_unit_number := ht2
      have h3 := h_occ t ht1' ht2'
      by_cases hq : t % N = p
      · refine ⟨?_, ?_, ?_⟩
        · show upd s.status p ProcessingUnitStatus.READY_TO_READ (t % N) ≠
            ProcessingUnitStatus.READY_TO_INSERT
          simp [upd, hq]
        · intro habs
          have habs' : upd s.status p ProcessingUnitStatus.READY_TO_READ
              (t % N) = ProcessingUnitStatus.READY_TO_FORMAT := habs
          rw [hq] at habs'
          simp [upd] at habs'
        · intro _
          have hc0 : s.chunkInSlot (t % N) = inputs.getD t [] :=
            h3.2.1 (by rw [hq]; exact hfmt)
          rw [hq] at hc0
          show upd s.segment p (fmt (s.chunkInSlot p)) (t % N) =
            fmt (inputs.getD t [])
          rw [hq]
          simp [upd, hc0]
      · refine ⟨?_, ?_, ?_⟩
        · show upd s.status p ProcessingUnitStatus.READY_TO_READ (t % N) ≠
            ProcessingUnitStatus.READY_TO_INSERT
          simpa [upd, hq] using h3.1
        · intro hst
          have hst' : s.status (t % N) =
              ProcessingUnitStatus.READY_TO_FORMAT := by
            have hst2 : upd s.status p ProcessingUnitStatus.READY_TO_READ
                (t % N) = ProcessingUnitStatus.READY_TO_FORMAT := hst
            simpa [upd, hq] using hst2
          exact h3.2.1 hst'
        · intro hst
          have hst' : s.status (t % N) =
              ProcessingUnitStatus.READY_TO_READ := by
            have hst2 : upd s.status p ProcessingUnitStatus.READY_TO_READ
                (t % N) = ProcessingUnitStatus.READY_TO_READ := hst
            simpa [upd, hq] using hst2
          show upd s.segment p (fmt (s.chunkInSlot p)) (t % N) =
            fmt (inputs.getD t [])
          simpa [upd, hq] using h3.2.2 hst'
  | collectorThread hready =>
    have hocc : occupied N s (s.collector_unit_number % N) := by
      by_contra hno
      rw [h_free _ hno] at hready
      exact absurd hready (by decide)
    have hcw : s.collector_unit_number < s.writer_unit_number := by
      obtain ⟨t0, ht1, ht2, _⟩ := hocc
      omega
    refine ⟨?_, ?_, h_wlen, ?_, ?_, ?_⟩
    · show s.collector_unit_number + 1 ≤ s.writer_unit_number
      omega
    · show s.writer_unit_number ≤ s.collector_unit_number + 1 + N
      omega
    · intro q hnq
      show upd s.status (s.collector_unit_number % N)
        ProcessingUnitStatus.READY_TO_INSERT q =
        ProcessingUnitStatus.READY_TO_INSERT
      by_cases hq : q = s.collector_unit_number % N
      · simp [upd, hq]
      · have hnqs : ¬ occupied N s q := by
          rintro ⟨t, ht1, ht2, ht3⟩
          by_cases htc : t = s.collector_unit_number
          · exact hq (by rw [← ht3, htc])
          · exact hnq ⟨t, show s.collector_unit_number + 1 ≤ t by omega,
              ht2, ht3⟩
        simpa [upd, hq] using h_free q hnqs
    · intro t ht1 ht2
      have ht1' : s.collector_unit_number + 1 ≤ t := ht1
      have ht2' : t < s.writer_unit_number := ht2
      have hne : t % N ≠ s.collector_unit_number % N := by
        intro heq
        have := ticket_unique h_wc
          (show s.collector_unit_number ≤ t by omega) ht2'
          (Nat.le_refl _) hcw heq
        omega
      have h3 := h_occ t (by omega) ht2'
      refine ⟨?_, ?_, ?_⟩
      · show upd s.status (s.collector_unit_number % N)
          ProcessingUnitStatus.READY_TO_INSERT (t % N) ≠
          ProcessingUnitStatus.READY_TO_INSERT
        simpa [upd, hne] using h3.1
      · intro hst
        have hst' : s.status (t % N) =
            ProcessingUnitStatus.READY_TO_FORMAT := by
          have h0 : upd s.status (s.collector_unit_number % N)
              ProcessingUnitStatus.READY_TO_INSERT (t % N) =
              ProcessingUnitStatus.READY_TO_FORMAT := hst
          simpa [upd, hne] using h0
        exact h3.2.1 hst'
      · intro hst
        have hst' : s.status (t % N) =
            ProcessingUnitStatus.READY_TO_READ := by
          have h0 : upd s.status (s.collector_unit_number % N)
              ProcessingUnitStatus.READY_TO_INSERT (t % N) =
              ProcessingUnitStatus.READY_TO_READ := hst
          simpa [upd, hne] using h0
        exact h3.2.2 hst'
    · show s.sink ++ s.segment (s.collector_unit_number % N) =
        seqFormat fmt (inputs.take (s.collector_unit_number + 1))
      have hseg : s.segment (s.collector_unit_number % N) =
          fmt (inputs.getD s.collector_unit_number []) :=
        (h_occ s.collector_unit_number (Nat.le_refl _) hcw).2.2 hready
      rw [h_sink, hseg, seqFormat_take_succ fmt inputs
        s.collector_unit_number (by omega)]

lemma reachable_inv {N : Nat} {inputs : List Chunk} {fmt : Chunk → List Nat}
    {s : SysState} (hN : 0 < N) (h : Reachable N inputs fmt s) :
    Inv N inputs fmt s := by
  induction h with
  | init => exact inv_init N inputs fmt
  | step _ hs ih => exact inv_step hN ih hs

/-! ### Concrete protocol steps for the witnesses -/

lemma stepW1 : Step 2 inputsW idFmt initSys sysW1 :=
  Step.addChunk initSys (by decide) (by decide)

lemma stepW2 : Step 2 inputsW idFmt sysW1 sysW2 :=
  Step.formatterThread sysW1 0 (by decide) (by decide)

lemma stepW3 : Step 2 inputsW idFmt sysW2 sysW3 :=
  Step.collectorThread sysW2 (by decide)

lemma reachW3 : Reachable 2 inputsW idFmt sysW3 :=
  Reachable.step (Reachable.step (Reachable.step Reachable.init stepW1)
    stepW2) stepW3

/-! ### Claim theorems -/

/-- C1: for every input sequence of chunks submitted through the producer
path, the bytes the collector has appended to the downstream sink are, at
every reachable point, exactly the single-threaded formatter output over
the already-collected ticket order; in particular once the collector has
drained every ticket the sink is byte-identical to the sequential run, and
bytes of ticket t precede all bytes of ticket t+1 because the sink is the
in-order concatenation of the per-ticket segments.  The number of in-flight
formatter workers is unconstrained by the step relation. -/
theorem C1_order_preservation (N : Nat) (hN : 0 < N) (inputs : List Chunk)
    (fmt : Chunk → List Nat) (s : SysState)
    (h : Reachable N inputs fmt s) :
    s.sink = seqFormat fmt (inputs.take s.collector_unit_number) ∧
    (s.collector_unit_number = inputs.length →
      s.sink = seqFormat fmt inputs) := by
  have hinv := reachable_inv hN h
  refine ⟨hinv.h_sink, ?_⟩
  intro hc
  rw [hinv.h_sink, hc, List.take_length]

theorem C1_order_preservation_witness :
    sysW3.sink = seqFormat idFmt (inputsW.take sysW3.collector_unit_number) :=
  (C1_order_preservation 2 (by decide) inputsW idFmt sysW3 reachW3).1

/-- C6: at every reachable state,
`collector_unit_number ≤ writer_unit_number ≤ collector_unit_number + N`,
and no protocol step ever decreases either ticket counter. -/
theorem C6_ticket_invariant (N : Nat) (hN : 0 < N) (inputs : List Chunk)
    (fmt : Chunk → List Nat) :
    (∀ s : SysState, Reachable N inputs fmt s →
      s.collector_unit_number ≤ s.writer_unit_number ∧
      s.writer_unit_number ≤ s.collector_unit_number + N) ∧
    (∀ s s' : SysState, Step N inputs fmt s s' →
      s.writer_unit_number ≤ s'.writer_unit_number ∧
      s.collector_unit_number ≤ s'.collector_unit_number) := by
  constructor
  · intro s h
    have hinv := reachable_inv hN h
    exact ⟨hinv.h_cw, hinv.h_wc⟩
  · intro s s' hstep
    cases hstep with
    | addChunk hin hfree =>
      exact ⟨show s.writer_unit_number ≤ s.writer_unit_number + 1 by omega,
        Nat.le_refl _⟩
    | formatterThread p hp hfmt =>
      exact ⟨Nat.le_refl _, Nat.le_refl _⟩
    | collectorThread hready =>
      exact ⟨Nat.le_refl _,
        show s.collector_unit_number ≤ s.collector_unit_number + 1 by omega⟩

theorem C6_ticket_invariant_witness :
    sysW3.collector_unit_number ≤ sysW3.writer_unit_number ∧
    sysW3.writer_unit_number ≤ sysW3.collector_unit_number + 2 :=
  (C6_ticket_invariant 2 (by decide) inputsW idFmt).1 sysW3 reachW3

/-- C7: a slot status takes only the three values `READY_TO_INSERT`
(`FREE`), `READY_TO_FORMAT` (`FORMATTING`), `READY_TO_READ` (`READY`), and
every protocol step either leaves a slot status unchanged or advances it by
exactly one stage of the cycle FREE → FORMATTING → READY → FREE — never
skipping a stage. -/
theorem C7_status_cycle (N : Nat) (inputs : List Chunk)
    (fmt : Chunk → List Nat) (s s' : SysState)
    (hstep : Step N inputs fmt s s') :
    (∀ st : ProcessingUnitStatus,
      st = ProcessingUnitStatus.READY_TO_INSERT ∨
      st = ProcessingUnitStatus.READY_TO_FORMAT ∨
      st = ProcessingUnitStatus.READY_TO_READ) ∧
    (∀ q : Nat,
      s'.status q = s.status q ∨
      (s.status q = ProcessingUnitStatus.READY_TO_INSERT ∧
        s'.status q = ProcessingUnitStatus.READY_TO_FORMAT) ∨
      (s.status q = ProcessingUnitStatus.READY_TO_FORMAT ∧
        s'.status q = ProcessingUnitStatus.READY_TO_READ) ∨
      (s.status q = ProcessingUnitStatus.READY_TO_READ ∧
        s'.status q = ProcessingUnitStatus.READY_TO_INSERT)) := by
  constructor
  · intro st
    cases st
    · exact Or.inl rfl
    · exact Or.inr (Or.inl rfl)
    · exact Or.inr (Or.inr rfl)
  · intro q
    cases hstep with
    | addChunk hin hfree =>
      by_cases hq : q = s.writer_unit_number % N
      · refine Or.inr (Or.inl ⟨by rw [hq]; exact hfree, ?_⟩)
        show upd s.status (s.writer_unit_number % N)
          ProcessingUnitStatus.READY_TO_FORMAT q =
          ProcessingUnitStatus.READY_TO_FORMAT
        simp [upd, hq]
      · refine Or.inl ?_
        show upd s.status (s.writer_unit_number % N)
          ProcessingUnitStatus.READY_TO_FORMAT q = s.status q
        simp [upd, hq]
    | formatterThread p hp hfmt =>
      by_cases hq : q = p
      · refine Or.inr (Or.inr (Or.inl ⟨by rw [hq]; exact hfmt, ?_⟩))
        show upd s.status p ProcessingUnitStatus.READY_TO_READ q =
          ProcessingUnitStatus.READY_TO_READ
        simp [upd, hq]
      · refine Or.inl ?_
        show upd s.status p ProcessingUnitStatus.READY_TO_READ q = s.status q
        simp [upd, hq]
    | collectorThread hready =>
      by_cases hq : q = s.collector_unit_number % N
      · refine Or.inr (Or.inr (Or.inr ⟨by rw [hq]; exact hready, ?_⟩))
        show upd s.status (s.collector_unit_number % N)
          ProcessingUnitStatus.READY_TO_INSERT q =
          ProcessingUnitStatus.READY_TO_INSERT
        simp [upd, hq]
      · refine Or.inl ?_
        show upd s.status (s.collector_unit_number % N)
          ProcessingUnitStatus.READY_TO_INSERT q = s.status q
        simp [upd, hq]

theorem C7_status_cycle_witness :
    sysW1.status 0 = initSys.status 0 ∨
    (initSys.status 0 = ProcessingUnitStatus.READY_TO_INSERT ∧
      sysW1.status 0 = ProcessingUnitStatus.READY_TO_FORMAT) ∨
    (initSys.status 0 = ProcessingUnitStatus.READY_TO_FORMAT ∧
      sysW1.status 0 = ProcessingUnitStatus.READY_TO_READ) ∨
    (initSys.status 0 = ProcessingUnitStatus.READY_TO_READ ∧
      sysW1.status 0 = ProcessingUnitStatus.READY_TO_INSERT) :=
  (C7_status_cycle 2 inputsW idFmt initSys sysW1 stepW1).2 0

/-- C2 counterexample: at `max_workers = SIZE_MAX` the `size_t` sum
`max_workers + 2` wraps to 1, so the ring gets `min(1, 1024) = 1` slot,
not `min(max_workers + 2, 1024) = 1024` as the claim states. -/
theorem C2_counterexample_size_t_wrap :
    ¬ ((construct false (2 ^ 64 - 1)).num_processing_units =
      min (2 ^ 64 - 1 + 2) 1024) := by
  decide

/-- C2 (amended): the constructor sizes the ring of processing units as
`min((max_workers + 2) mod 2^64, 1024)` — the sum is computed in `size_t`
and wraps; the size never exceeds 1024, and it equals `max_workers + 2`
whenever that sum is at most 1024 (then no wrap occurs). -/
theorem C2_ring_size (cap : Bool) (m : Nat) :
    (construct cap m).num_processing_units =
      min ((m + 2) % sizeTModulus) 1024 ∧
    (construct cap m).num_processing_units ≤ 1024 ∧
    (m + 2 ≤ 1024 → (construct cap m).num_processing_units = m + 2) := by
  refine ⟨rfl, ?_, ?_⟩
  · show min ((m + 2) % sizeTModulus) 1024 ≤ 1024
    exact Nat.min_le_right _ _
  · intro h
    show min ((m + 2) % sizeTModulus) 1024 = m + 2
    have hbound : (1024 : Nat) < sizeTModulus := by
      norm_num [sizeTModulus]
    rw [Nat.mod_eq_of_lt (by omega)]
    exact Nat.min_eq_left h

theorem C2_ring_size_witness :
    (construct false 4).num_processing_units = 4 + 2 :=
  (C2_ring_size false 4).2.2 (by decide)

lemma addChunk_emergency_tickets (s : FmtState) (c : Chunk)
    (t : ProcessingUnitType) (b : Bool) (h : s.emergency_stop = true) :
    (addChunk s c t b).1.tickets = s.tickets := by
  cases b <;> cases hf : s.exception_is_rethrown <;>
    simp [addChunk, rethrowBackgroundException, h, hf]

/-- C3 counterexample: on a poisoned instance (a background error set
`emergency_stop`) with the capability off, `consumeTotals` enqueues no
`TOTALS` ticket, refuting the unconditional "otherwise a TOTALS ticket is
enqueued on the ring". -/
theorem C3_counterexample_poisoned :
    ¬ ((consumeTotals poisonedState [9]).1.tickets =
      poisonedState.tickets ++ [(ProcessingUnitType.TOTALS, [9])]) := by
  decide

/-- C3 (amended): the `totals_and_extremes_used_in_finalize` capability
queried at construction is stored in
`save_totals_and_extremes_in_statistics`; when it is set, `consumeTotals` /
`consumeExtremes` store the chunk into the shared statistics and enqueue no
ticket; otherwise, as long as `emergency_stop` is not set, they enqueue a
`TOTALS` (respectively `EXTREMES`) ticket, leaving the statistics
untouched — while on a poisoned instance (`emergency_stop` set) no ticket
is enqueued at all. -/
theorem C3_totals_extremes_routing (cap : Bool) (m : Nat) (s : FmtState)
    (c : Chunk) :
    (construct cap m).save_totals_and_extremes_in_statistics = cap ∧
    (s.save_totals_and_extremes_in_statistics = true →
      (consumeTotals s c).1.statistics.totals = some c ∧
      (consumeTotals s c).1.tickets = s.tickets ∧
      (consumeExtremes s c).1.statistics.extremes = some c ∧
      (consumeExtremes s c).1.tickets = s.tickets) ∧
    (s.save_totals_and_extremes_in_statistics = false →
      s.emergency_stop = false →
      (consumeTotals s c).1.tickets =
        s.tickets ++ [(ProcessingUnitType.TOTALS, c)] ∧
      (consumeTotals s c).1.statistics = s.statistics ∧
      (consumeTotals s c).1.are_totals_written = true ∧
      (consumeExtremes s c).1.tickets =
        s.tickets ++ [(ProcessingUnitType.EXTREMES, c)] ∧
      (consumeExtremes s c).1.statistics = s.statistics) ∧
    (s.save_totals_and_extremes_in_statistics = false →
      s.emergency_stop = true →
      (consumeTotals s c).1.tickets = s.tickets ∧
      (consumeExtremes s c).1.tickets = s.tickets) := by
  refine ⟨rfl, ?_, ?_, ?_⟩
  · intro h
    simp [consumeTotals, consumeExtremes, h]
  · intro h1 h2
    simp [consumeTotals, consumeExtremes, addChunk, h1, h2]
  · intro h1 h2
    constructor
    · have hadd := addChunk_emergency_tickets s c ProcessingUnitType.TOTALS
        true h2
      simp only [consumeTotals, h1, Bool.false_eq_true, if_false]
      cases hcase : addChunk s c ProcessingUnitType.TOTALS true with
      | mk s1 o =>
        rw [hcase] at hadd
        cases o <;> simpa using hadd
    · have hadd := addChunk_emergency_tickets s c ProcessingUnitType.EXTREMES
        true h2
      simp only [consumeExtremes, h1, Bool.false_eq_true, if_false]
      exact hadd

theorem C3_totals_extremes_routing_witness :
    (consumeTotals (construct true 4) [9]).1.statistics.totals = some [9] ∧
    (consumeTotals (construct true 4) [9]).1.tickets = [] :=
  ⟨((C3_totals_extremes_routing true 4 (construct true 4) [9]).2.1 rfl).1,
   ((C3_totals_extremes_routing true 4 (construct true 4) [9]).2.1 rfl).2.1⟩

/-- C4: every background-error report sets `emergency_stop` and notifies
both condition variables, but only the first report writes
`background_exception`; any previously stored exception is preserved and
later errors are swallowed. -/
theorem C4_background_exception_once (s : FmtState) (e : Nat) :
    (onBackgroundException s e).emergency_stop = true ∧
    (onBackgroundException s e).writer_notifications =
      s.writer_notifications + 1 ∧
    (onBackgroundException s e).collector_notifications =
      s.collector_notifications + 1 ∧
    (s.background_exception = none →
      (onBackgroundException s e).background_exception = some e) ∧
    (∀ e0 : Nat, s.background_exception = some e0 →
      (onBackgroundException s e).background_exception = some e0) := by
  refine ⟨rfl, rfl, rfl, ?_, ?_⟩
  · intro h
    simp [onBackgroundException, h]
  · intro e0 h
    simp [onBackgroundException, h]

theorem C4_background_exception_once_witness :
    (onBackgroundException (construct false 4) 7).background_exception =
      some 7 ∧
    (onBackgroundException (onBackgroundException (construct false 4) 7)
      9).background_exception = some 7 :=
  ⟨(C4_background_exception_once (construct false 4) 7).2.2.2.1 rfl,
   (C4_background_exception_once
     (onBackgroundException (construct false 4) 7) 9).2.2.2.2 7 rfl⟩

lemma rethrowCalls_latched (n : Nat) (s : FmtState)
    (h : s.exception_is_rethrown = true) :
    rethrowCalls n s = (s, 0) := by
  induction n with
  | zero => rfl
  | succ n ih =>
    simp [rethrowCalls, rethrowBackgroundException, h, ih]

/-- C5: once a background exception is recorded, the rethrow path throws it
on the first call, latches `exception_is_rethrown`, and across any number
of subsequent calls exactly the first one throws. -/
theorem C5_rethrow_once (s : FmtState) (e : Nat) (n : Nat)
    (h1 : s.background_exception = some e)
    (h2 : s.exception_is_rethrown = false) :
    (rethrowBackgroundException s).2 = some e ∧
    (rethrowBackgroundException s).1.exception_is_rethrown = true ∧
    (1 ≤ n → (rethrowCalls n s).2 = 1) := by
  refine ⟨?_, ?_, ?_⟩
  · simp [rethrowBackgroundException, h1, h2]
  · simp [rethrowBackgroundException, h2]
  · intro hn
    obtain ⟨m, rfl⟩ : ∃ m, n = m + 1 := ⟨n - 1, by omega⟩
    simp [rethrowCalls, rethrowBackgroundException, h1, h2,
      rethrowCalls_latched]

theorem C5_rethrow_once_witness : (rethrowCalls 2 excState).2 = 1 :=
  (C5_rethrow_once excState 5 2 rfl rfl).2.2 (by decide)

/-- C8 counterexample: with auto-flush mode enabled, `flushImpl` does not
set `need_flush`, so the claim that `flush()` sets the flag regardless of
the instance state is false. -/
theorem C8_counterexample_auto_flush :
    ¬ ((flushImpl autoFlushState).need_flush = true) := by
  decide

/-- C8 (amended): `flushImpl` sets `need_flush` whenever `auto_flush` is
not enabled; with `auto_flush` set it leaves the whole state unchanged. -/
theorem C8_flush_sets_need_flush (s : FmtState) :
    (s.auto_flush = false → (flushImpl s).need_flush = true) ∧
    (s.auto_flush = true → flushImpl s = s) := by
  constructor
  · intro h
    simp [flushImpl, h]
  · intro h
    simp [flushImpl, h]

theorem C8_flush_sets_need_flush_witness :
    (flushImpl (construct false 4)).need_flush = true :=
  (C8_flush_sets_need_flush (construct false 4)).1 rfl

/-- C9: `resetFormatterImpl` throws a `NOT_IMPLEMENTED` error in every
state and leaves the instance state unchanged. -/
theorem C9_reset_not_implemented (s : FmtState) :
    (resetFormatterImpl s).1 = s ∧
    (resetFormatterImpl s).2 = some ErrorCode.NOT_IMPLEMENTED :=
  ⟨rfl, rfl⟩

/-- C10: `byteSwap` is an involution on every `n`-byte integer value, and
on 1-byte values it is the identity. -/
theorem C10_byteSwap_involution :
    (∀ n x : Nat, x < 256 ^ n → byteSwap n (byteSwap n x) = x) ∧
    (∀ x : Nat, x < 256 → byteSwap 1 x = x) := by
  have hmain : ∀ n x : Nat, x < 256 ^ n → byteSwap n (byteSwap n x) = x := by
    intro n x hx
    unfold byteSwap
    have hbytes : ∀ b ∈ (toBytes n x).reverse, b < 256 := by
      intro b hb
      exact toBytes_lt n x b (List.mem_reverse.mp hb)
    have h1 := toBytes_fromBytes (toBytes n x).reverse hbytes
    rw [List.length_reverse, length_toBytes] at h1
    rw [h1, List.reverse_reverse, fromBytes_toBytes n x hx]
  refine ⟨hmain, ?_⟩
  intro x hx
  simp [byteSwap, toBytes, fromBytes]
  omega

theorem C10_byteSwap_involution_witness :
    byteSwap 16 (byteSwap 16 123456789) = 123456789 :=
  C10_byteSwap_involution.1 16 123456789 (by norm_num)

end ClickSpec
